import Mathlib

/-! expire-php-session-files: a shallow embedding of `main.go`

The program reads `session.gc_maxlifetime` from a php config file
(`readSessionExpiry`), lists a session directory in batches and removes every
non-directory entry whose modification time lies before
`now - (expiry + graceSeconds)` (the scan loop of `main`).

Conventions of the embedding.

* A Go `string` is a sequence of bytes: `GoString = List UInt8`. `len`, slicing
  and `==` of the source act on bytes, and so do `List.length`, `List.take`,
  `List.drop` and `=` here.
* A Go `int` is a 64-bit two's complement integer, represented by an `Int`
  together with `wrapInt` at the one place where the source does arithmetic on
  a config-controlled value (`sessionExpiry+graceSeconds`).
* A `time.Time` is an instant, represented by its number of nanoseconds on the
  time line (an `Int`); a `time.Duration` is a number of nanoseconds.
* `log.Fatal` ends the process: functions that may reach it return
  `Except Fatal _`.
* What the operating system and the Go library hand to the program (the lines
  the `bufio.Scanner` delivers, the results of the successive `Readdir` calls,
  the clock) are inputs of the embedded functions.
-/

namespace ExpireFiles

/-! ## Data model -/

/-- A Go string: a sequence of bytes. -/
abbrev GoString := List UInt8

/-- The bytes of a source literal (UTF-8, as the Go compiler stores it). -/
def bytes (s : String) : GoString := s.data.flatMap String.utf8EncodeChar

/-- Places at which the program calls `log.Fatal`. -/
inductive Fatal where
  | statConfig      -- main.go:57  os.Stat(configFile)
  | openConfig      -- main.go:131 os.Open(c)
  | scanConfig      -- main.go:152 s.Err()
  | openDir         -- main.go:65  os.Open(sessionDir)
  | parseDuration   -- main.go:73  time.ParseDuration
  | readdir         -- main.go:86  d.Readdir, error other than io.EOF
  deriving DecidableEq, Repr

deriving instance DecidableEq for Except

/-- Constant `defaultExpiry = 8 * 60 * 60` (main.go:17). -/
def defaultExpiry : Int := 8 * 60 * 60

/-- Constant `graceSeconds = 60 * 60` (main.go:18). -/
def graceSeconds : Int := 60 * 60

/-- Variable `batchSize = 1000` (main.go:26); never reassigned. -/
def batchSize : Nat := 1000

/-- Smallest value of a Go `int` (64 bits). -/
def minInt : Int := -(2 ^ 63)

/-- Largest value of a Go `int` (64 bits). -/
def maxInt : Int := 2 ^ 63 - 1

/-- Two's complement wrap-around of 64-bit `int` arithmetic. -/
def wrapInt (x : Int) : Int := (x + 2 ^ 63) % 2 ^ 64 - 2 ^ 63

/-! ## `strconv.Atoi` -/

/-- The two errors of `strconv`: `ErrSyntax` and `ErrRange`. -/
inductive NumError where
  | badSyntax   -- strconv.ErrSyntax
  | outOfRange  -- strconv.ErrRange
  deriving DecidableEq, Repr

/-- ASCII decimal digit test, `'0' <= c && c <= '9'`. -/
def isDigit (c : UInt8) : Bool := decide (48 ≤ c.toNat ∧ c.toNat ≤ 57)

/-- Value of a run of decimal digits, most significant first:
`n = n*10 + int(ch - '0')` for each byte. -/
def digitsValue (ds : GoString) : Nat :=
  ds.foldl (fun n ch => n * 10 + (ch.toNat - 48)) 0

/-- Sign and magnitude text of a number: one leading `'+'` (43) or `'-'` (45)
is taken off. -/
def splitSign (s : GoString) : Bool × GoString :=
  match s with
  | 45 :: rest => (true, rest)
  | 43 :: rest => (false, rest)
  | _ => (false, s)

/-- The digit loop of the library function `strconv.ParseUint(s, 10, 64)`, `n`
being the value read so far. Bytes are read left to right: a byte that is not
a decimal digit is `ErrSyntax`; a digit that would carry the value past
`2^64 - 1` is `ErrRange` (`n >= cutoff` with `cutoff = maxUint64/10 + 1`, or
`n*10 + d` above `maxUint64`). Whichever comes first decides. -/
def parseUintFrom (n : Nat) : GoString → Except NumError Nat
  | [] => .ok n
  | c :: rest =>
    if !isDigit c then .error .badSyntax
    else if 1844674407370955162 ≤ n then .error .outOfRange
    else if 18446744073709551615 < n * 10 + (c.toNat - 48) then .error .outOfRange
    else parseUintFrom (n * 10 + (c.toNat - 48)) rest

/-- Library function `strconv.Atoi(s)`, that is `ParseInt(s, 10, 0)` with a
64-bit `int`: an optional sign, then one or more decimal digits read by
`ParseUint`, then the test of the magnitude against `2^63` (`un >= cutoff`
without a minus sign, `un > cutoff` with one). -/
def Atoi (s : GoString) : Except NumError Int :=
  let neg := (splitSign s).1
  let ds := (splitSign s).2
  if ds = [] then .error .badSyntax
  else
    match parseUintFrom 0 ds with
    | .error e => .error e
    | .ok un =>
      if !neg && decide (9223372036854775808 ≤ un) then .error .outOfRange
      else if neg && decide (9223372036854775808 < un) then .error .outOfRange
      else .ok (if neg then -(un : Int) else (un : Int))

/-! ## `readSessionExpiry` (main.go:125-157) -/

/-- The literal `"session.gc_maxlifetime = "` (main.go:144), 25 bytes. -/
def keyPrefix : GoString := bytes "session.gc_maxlifetime = "

/-- What opening and scanning the config file gives: either `os.Open` fails,
or the `bufio.Scanner` delivers the lines `lines` (one per successful
`s.Scan()`, line terminators removed) and then stops, `scanErr` telling
whether `s.Err()` is non-nil afterwards. -/
inductive ConfigFile where
  | unopenable
  | scanned (lines : List GoString) (scanErr : Bool)

/-- How the `for s.Scan()` loop (main.go:138-150) ends. -/
inductive LoopEnd where
  | returned (v : Int)   -- `return defaultExpiry` inside the loop
  | fellThrough (expiry : Int)  -- the scanner stopped; `expiry` is the variable
  deriving DecidableEq, Repr

/-- The `for s.Scan()` loop of `readSessionExpiry`, `expiry` being the value of
the local variable on entry and the list the lines still to come. -/
def scanLoop (expiry : Int) : List GoString → LoopEnd
  | [] => .fellThrough expiry
  | text :: rest =>
    if text.length < 27 then scanLoop expiry rest
    else if text.take 25 = keyPrefix then
      match Atoi (text.drop 25) with
      | .ok v => scanLoop v rest
      | .error _ => .returned defaultExpiry
    else scanLoop expiry rest

/-- Function `readSessionExpiry(c)` on the contents found at path `c`. -/
def readSessionExpiry : ConfigFile → Except Fatal Int
  | .unopenable => .error .openConfig
  | .scanned lines scanErr =>
    match scanLoop 0 lines with
    | .returned v => .ok v
    | .fellThrough expiry => if scanErr then .error .scanConfig else .ok expiry

/-! ## The scan loop of `main` (main.go:70-104) -/

/-- A `time.Time`: an instant, in nanoseconds on the time line. -/
abbrev Time := Int

/-- A `time.Duration`: a signed number of nanoseconds. -/
abbrev Duration := Int

/-- Library method `t.Add(d)`. -/
def timeAdd (t : Time) (d : Duration) : Time := t + d

/-- Library method `t.After(u)`: `t` is strictly later than `u`. -/
def timeAfter (t u : Time) : Bool := decide (u < t)

/-- Library call `time.ParseDuration(fmt.Sprintf("-%ds", n))` for an `int` `n`.
For `0 ≤ n` the text is `-<n>s`, which parses to minus `n` seconds unless the
number of seconds exceeds `2^63 / 10^9 = 9223372036`; for `n < 0` the text
starts with two minus signs, which is not a duration. -/
def parseCutoff (n : Int) : Except Fatal Duration :=
  if 0 ≤ n ∧ n ≤ 9223372036 then .ok (-(n * 1000000000)) else .error .parseDuration

/-- The `duration` of main.go:73, from `sessionExpiry`; the sum is `int`
arithmetic. -/
def cutoffDuration (sessionExpiry : Int) : Except Fatal Duration :=
  parseCutoff (wrapInt (sessionExpiry + graceSeconds))

/-- The fields of an `os.FileInfo` the program reads. -/
structure FileInfo where
  Name : GoString
  IsDir : Bool
  ModTime : Time
  deriving DecidableEq, Repr

/-- The error of the `Readdir` call that ends the loop. -/
inductive ReaddirEnd where
  | eof     -- io.EOF: `break`
  | failed  -- any other error: `log.Fatal`
  deriving DecidableEq, Repr

/-- What the directory handle delivers: `batches` are the slices returned by
the successive calls `d.Readdir(batchSize)` that return a nil error, and
`ending` is the error of the first call that returns one (the slice of that
call is not looked at by the program). -/
structure Listing where
  batches : List (List FileInfo)
  ending : ReaddirEnd
  deriving DecidableEq, Repr

/-- The effects of the scan so far: the variable `count` (main.go:78; far from
the 64-bit limit for any directory, hence a `Nat`), the paths given to
`os.Remove` and the messages given to the logger by `debug`, both in order. -/
structure ScanState where
  count : Nat
  removed : List GoString
  debugLog : List GoString
  deriving DecidableEq, Repr

/-- State at main.go:78. -/
def ScanState.init : ScanState := { count := 0, removed := [], debugLog := [] }

/-- The flags and paths the scan uses: `d.Name()` (the path given to `os.Open`,
i.e. `sessionDir`), `dryrunOn`, `debugOn`. -/
structure ScanConfig where
  dirName : GoString
  dryrunOn : Bool
  debugOn : Bool
  deriving DecidableEq, Repr

/-- The test of main.go:94, `now.Add(duration).After(f.ModTime())`. -/
def isExpired (now : Time) (duration : Duration) (f : FileInfo) : Bool :=
  timeAfter (timeAdd now duration) f.ModTime

/-- Body of the inner loop `for _, f := range fs` (main.go:90-100). -/
def visit (c : ScanConfig) (now : Time) (duration : Duration)
    (st : ScanState) (f : FileInfo) : ScanState :=
  if f.IsDir then st
  else if isExpired now duration f then
    { count := st.count + 1
      removed := if !c.dryrunOn then st.removed ++ [c.dirName ++ f.Name] else st.removed
      debugLog :=
        if c.debugOn then st.debugLog ++ [bytes "DEBUG: Deleted: " ++ c.dirName ++ f.Name]
        else st.debugLog }
  else st

/-- The outer loop `for readMore` (main.go:79-102) over the batches that come
with a nil error. -/
def scanBatches (c : ScanConfig) (now : Time) (duration : Duration) :
    ScanState → List (List FileInfo) → ScanState
  | st, [] => st
  | st, fs :: more => scanBatches c now duration (fs.foldl (visit c now duration) st) more

/-- A run of the program from main.go:78 on: the effects, and either the count
printed by the summary line (main.go:104) or the fatal error. -/
structure Run where
  effects : ScanState
  result : Except Fatal Nat
  deriving DecidableEq

/-- Lines 78-104 of `main`: scan all batches, then `break` and report on
`io.EOF`, `log.Fatal` on another error. -/
def scanDir (c : ScanConfig) (now : Time) (duration : Duration) (l : Listing) : Run :=
  let st := scanBatches c now duration ScanState.init l.batches
  match l.ending with
  | .eof => { effects := st, result := .ok st.count }
  | .failed => { effects := st, result := .error .readdir }

/-- What `main` finds outside the process. -/
structure World where
  configStat : Bool        -- `os.Stat(configFile)` succeeds
  config : ConfigFile      -- the file at `configFile`
  dirOpens : Bool          -- `os.Open(sessionDir)` succeeds
  now : Time               -- `time.Now()`
  listing : Listing        -- the `Readdir` calls on the directory

/-- A run that ends in `log.Fatal` before the scan. -/
def Run.fatal (e : Fatal) : Run := { effects := ScanState.init, result := .error e }

/-- Function `main` (main.go:43-105) after flag parsing, `c` holding
`sessionDir` and the two boolean flags. -/
def main (c : ScanConfig) (w : World) : Run :=
  if !w.configStat then Run.fatal .statConfig
  else
    match readSessionExpiry w.config with
    | .error e => Run.fatal e
    | .ok sessionExpiry =>
      if !w.dirOpens then Run.fatal .openDir
      else
        match cutoffDuration sessionExpiry with
        | .error e => Run.fatal e
        | .ok duration => scanDir c w.now duration w.listing

/-! ## Notions the specification uses -/

/-- Specification wording "the line starts with the 25-character prefix". -/
def startsWithKey (l : GoString) : Bool := decide (l.take 25 = keyPrefix)

/-- Specification wording "a valid base-10 integer": an optional sign followed by
one or more decimal digits. -/
def isBase10Integer (s : GoString) : Bool :=
  (splitSign s).2 ≠ [] && (splitSign s).2.all isDigit

/-- The integer a base-10 numeral denotes. -/
def base10Value (s : GoString) : Int :=
  if (splitSign s).1 then -(digitsValue (splitSign s).2 : Int) else (digitsValue (splitSign s).2 : Int)

/-- Specification wording "the integer on the last such line". -/
def lastKeyValue (lines : List GoString) : Option Int :=
  (lines.filter startsWithKey).getLast?.map (fun l => base10Value (l.drop 25))

/-- Last match wins, as the specification words it: if every line that starts
with the prefix is followed by a valid base-10 integer, the expiry returned is
the integer on the last such line. -/
def LastMatchWins (lines : List GoString) : Prop :=
  (∀ l ∈ lines, startsWithKey l = true → isBase10Integer (l.drop 25) = true) →
    ∀ v, lastKeyValue lines = some v → readSessionExpiry (.scanned lines false) = .ok v

/-- An entry that is counted: not a directory, and older than the cutoff. -/
def counted (now : Time) (duration : Duration) (f : FileInfo) : Bool :=
  !f.IsDir && isExpired now duration f

/-! ## Lemmas on `Atoi` -/

theorem keyPrefix_length : keyPrefix.length = 25 := by decide

/-- The model of `strconv.Atoi` at the edges of its domain: the two ends of the
`int` range, one past each end, an overflow met before a non-digit, a
non-digit met first, a lone sign and the empty string. -/
theorem Atoi_edges :
    Atoi (bytes "9223372036854775807") = .ok 9223372036854775807 ∧
    Atoi (bytes "-9223372036854775808") = .ok (-9223372036854775808) ∧
    Atoi (bytes "9223372036854775808") = .error .outOfRange ∧
    Atoi (bytes "-9223372036854775809") = .error .outOfRange ∧
    Atoi (bytes "99999999999999999999x") = .error .outOfRange ∧
    Atoi (bytes "12x") = .error .badSyntax ∧
    Atoi (bytes "+") = .error .badSyntax ∧
    Atoi (bytes "") = .error .badSyntax := by
  decide

theorem parseUintFrom_ok (n m : Nat) (ds : GoString) (h : parseUintFrom n ds = .ok m) :
    ds.all isDigit = true ∧ m = ds.foldl (fun n ch => n * 10 + (ch.toNat - 48)) n := by
  induction ds generalizing n with
  | nil =>
    simp only [parseUintFrom] at h
    injection h with h
    exact ⟨rfl, h.symm⟩
  | cons c rest ih =>
    simp only [parseUintFrom] at h
    cases hc : isDigit c
    · simp [hc] at h
    · simp only [hc, Bool.not_true, Bool.false_eq_true, if_false] at h
      by_cases h1 : 1844674407370955162 ≤ n
      · rw [if_pos h1] at h; cases h
      · rw [if_neg h1] at h
        by_cases h2 : 18446744073709551615 < n * 10 + (c.toNat - 48)
        · rw [if_pos h2] at h; cases h
        · rw [if_neg h2] at h
          obtain ⟨ha, hm⟩ := ih _ h
          exact ⟨by simp [List.all_cons, hc, ha], by simpa [List.foldl_cons] using hm⟩

theorem Atoi_ok_base10 (s : GoString) (v : Int) (h : Atoi s = .ok v) :
    isBase10Integer s = true ∧ base10Value s = v ∧ minInt ≤ v ∧ v ≤ maxInt := by
  unfold Atoi at h
  unfold isBase10Integer base10Value
  by_cases hnil : (splitSign s).2 = []
  · simp [hnil] at h
  · simp only [hnil, if_false] at h
    cases hp : parseUintFrom 0 (splitSign s).2 with
    | error e => rw [hp] at h; cases h
    | ok un =>
      rw [hp] at h
      obtain ⟨hall, hun⟩ := parseUintFrom_ok 0 un _ hp
      have hdv : digitsValue (splitSign s).2 = un := by rw [digitsValue, hun]
      rw [hdv]
      have hb : (decide ((splitSign s).2 ≠ []) && (splitSign s).2.all isDigit) = true := by
        simp only [hall, Bool.and_true]
        simpa using hnil
      cases hneg : (splitSign s).1
      · simp only [hneg, Bool.not_false, Bool.true_and, Bool.false_and, Bool.false_eq_true,
          if_false, decide_eq_true_eq] at h
        by_cases hr : 9223372036854775808 ≤ un
        · rw [if_pos hr] at h; cases h
        · rw [if_neg hr] at h
          injection h with h
          subst h
          refine ⟨hb, by simp, ?_, ?_⟩
          · unfold minInt; norm_num; omega
          · unfold maxInt; norm_num; omega
      · simp only [hneg, Bool.not_true, Bool.true_and, Bool.false_and, Bool.false_eq_true,
          if_false, if_true, decide_eq_true_eq] at h
        by_cases hr : 9223372036854775808 < un
        · rw [if_pos hr] at h; cases h
        · rw [if_neg hr] at h
          injection h with h
          subst h
          refine ⟨hb, by simp, ?_, ?_⟩
          · unfold minInt; norm_num; omega
          · unfold maxInt; norm_num; omega

theorem Atoi_fails_of_not_base10 (s : GoString) (h : isBase10Integer s = false) :
    ∀ v, Atoi s ≠ .ok v := by
  intro v hv
  have := (Atoi_ok_base10 s v hv).1
  rw [h] at this
  cases this

theorem Atoi_nonneg (s : GoString) (v : Int) (h : Atoi s = .ok v)
    (hs : s.head? ≠ some 45) : 0 ≤ v ∧ v ≤ maxInt := by
  have hv := (Atoi_ok_base10 s v h).2.1
  have hsign : (splitSign s).1 = false := by
    unfold splitSign
    split
    · simp at hs
    · rfl
    · rfl
  refine ⟨?_, (Atoi_ok_base10 s v h).2.2.2⟩
  rw [← hv]
  unfold base10Value
  simp [hsign]

/-! ## Lemmas on the loop of `readSessionExpiry` -/

theorem scanLoop_short (e : Int) (l : GoString) (rest : List GoString)
    (h : l.length < 27) : scanLoop e (l :: rest) = scanLoop e rest := by
  simp [scanLoop, h]

theorem scanLoop_other (e : Int) (l : GoString) (rest : List GoString)
    (h : l.take 25 ≠ keyPrefix) : scanLoop e (l :: rest) = scanLoop e rest := by
  by_cases hlen : l.length < 27
  · exact scanLoop_short e l rest hlen
  · simp [scanLoop, hlen, h]

theorem scanLoop_match (e v : Int) (l : GoString) (rest : List GoString)
    (hlen : 27 ≤ l.length) (hk : l.take 25 = keyPrefix) (hv : Atoi (l.drop 25) = .ok v) :
    scanLoop e (l :: rest) = scanLoop v rest := by
  have : ¬ l.length < 27 := by omega
  simp [scanLoop, this, hk, hv]

theorem scanLoop_bad (e : Int) (l : GoString) (rest : List GoString)
    (hlen : 27 ≤ l.length) (hk : l.take 25 = keyPrefix) (hv : ∀ v, Atoi (l.drop 25) ≠ .ok v) :
    scanLoop e (l :: rest) = .returned defaultExpiry := by
  have : ¬ l.length < 27 := by omega
  cases hA : Atoi (l.drop 25) with
  | ok v => exact absurd hA (hv v)
  | error err => simp [scanLoop, this, hk, hA]

/-- Lines without the key leave the variable `expiry` alone. -/
theorem scanLoop_no_key (e : Int) (lines : List GoString)
    (h : ∀ l ∈ lines, l.take 25 ≠ keyPrefix) : scanLoop e lines = .fellThrough e := by
  induction lines with
  | nil => rfl
  | cons l rest ih =>
    rw [scanLoop_other e l rest (h l (List.mem_cons_self _ _))]
    exact ih (fun x hx => h x (List.mem_cons_of_mem _ hx))

/-- The loop ends either at `return defaultExpiry` or by falling through. -/
theorem scanLoop_cases (e : Int) (lines : List GoString) :
    scanLoop e lines = .returned defaultExpiry ∨ ∃ v, scanLoop e lines = .fellThrough v := by
  induction lines generalizing e with
  | nil => exact Or.inr ⟨e, rfl⟩
  | cons l rest ih =>
    by_cases hlen : l.length < 27
    · rw [scanLoop_short e l rest hlen]; exact ih e
    · by_cases hk : l.take 25 = keyPrefix
      · cases hA : Atoi (l.drop 25) with
        | ok v => rw [scanLoop_match e v l rest (by omega) hk hA]; exact ih v
        | error err =>
          exact Or.inl (scanLoop_bad e l rest (by omega) hk (by intro v hv; rw [hA] at hv; cases hv))
      · rw [scanLoop_other e l rest hk]; exact ih e

/-- A matching line of 27 bytes or more whose value does not parse makes the loop
return the default, wherever it stands. -/
theorem scanLoop_malformed (e : Int) (lines : List GoString)
    (h : ∃ l ∈ lines, 27 ≤ l.length ∧ l.take 25 = keyPrefix ∧ ∀ v, Atoi (l.drop 25) ≠ .ok v) :
    scanLoop e lines = .returned defaultExpiry := by
  induction lines generalizing e with
  | nil => obtain ⟨l, hl, _⟩ := h; cases hl
  | cons x rest ih =>
    obtain ⟨l, hl, hlen, hk, hv⟩ := h
    by_cases hx : 27 ≤ x.length ∧ x.take 25 = keyPrefix ∧ ∀ v, Atoi (x.drop 25) ≠ .ok v
    · exact scanLoop_bad e x rest hx.1 hx.2.1 hx.2.2
    · have hmem : l ∈ rest := by
        rcases List.mem_cons.mp hl with hlx | hlr
        · exact absurd ⟨hlx ▸ hlen, hlx ▸ hk, hlx ▸ hv⟩ hx
        · exact hlr
      have hrest : ∃ l ∈ rest, 27 ≤ l.length ∧ l.take 25 = keyPrefix ∧
          ∀ v, Atoi (l.drop 25) ≠ .ok v := ⟨l, hmem, hlen, hk, hv⟩
      by_cases hxlen : x.length < 27
      · rw [scanLoop_short e x rest hxlen]; exact ih e hrest
      · by_cases hxk : x.take 25 = keyPrefix
        · cases hA : Atoi (x.drop 25) with
          | ok v => rw [scanLoop_match e v x rest (by omega) hxk hA]; exact ih v hrest
          | error err =>
            exact scanLoop_bad e x rest (by omega) hxk (by intro v hv; rw [hA] at hv; cases hv)
        · rw [scanLoop_other e x rest hxk]; exact ih e hrest

/-- Lines in which every occurrence of the key carries a value that parses are
passed without leaving the loop. -/
theorem scanLoop_append_valid (e : Int) (pre rest : List GoString)
    (h : ∀ x ∈ pre, x.take 25 = keyPrefix → ∃ n, Atoi (x.drop 25) = .ok n) :
    ∃ e1, scanLoop e (pre ++ rest) = scanLoop e1 rest := by
  induction pre generalizing e with
  | nil => exact ⟨e, rfl⟩
  | cons x pre ih =>
    have hpre : ∀ y ∈ pre, y.take 25 = keyPrefix → ∃ n, Atoi (y.drop 25) = .ok n :=
      fun y hy => h y (List.mem_cons_of_mem _ hy)
    rw [List.cons_append]
    by_cases hxlen : x.length < 27
    · rw [scanLoop_short e x _ hxlen]; exact ih e hpre
    · by_cases hxk : x.take 25 = keyPrefix
      · obtain ⟨n, hn⟩ := h x (List.mem_cons_self _ _) hxk
        rw [scanLoop_match e n x _ (by omega) hxk hn]; exact ih n hpre
      · rw [scanLoop_other e x _ hxk]; exact ih e hpre

/-- The variable `expiry` stays a non-negative `int` when no value starts with a
minus sign. -/
theorem scanLoop_nonneg (e : Int) (lines : List GoString) (he : 0 ≤ e ∧ e ≤ maxInt)
    (h : ∀ l ∈ lines, l.take 25 = keyPrefix → (l.drop 25).head? ≠ some 45) :
    scanLoop e lines = .returned defaultExpiry ∨
      ∃ v, scanLoop e lines = .fellThrough v ∧ 0 ≤ v ∧ v ≤ maxInt := by
  induction lines generalizing e with
  | nil => exact Or.inr ⟨e, rfl, he⟩
  | cons l rest ih =>
    have hrest : ∀ y ∈ rest, y.take 25 = keyPrefix → (y.drop 25).head? ≠ some 45 :=
      fun y hy => h y (List.mem_cons_of_mem _ hy)
    by_cases hlen : l.length < 27
    · rw [scanLoop_short e l rest hlen]; exact ih e he hrest
    · by_cases hk : l.take 25 = keyPrefix
      · cases hA : Atoi (l.drop 25) with
        | ok v =>
          rw [scanLoop_match e v l rest (by omega) hk hA]
          exact ih v (Atoi_nonneg _ v hA (h l (List.mem_cons_self _ _) hk)) hrest
        | error err =>
          exact Or.inl (scanLoop_bad e l rest (by omega) hk (by intro v hv; rw [hA] at hv; cases hv))
      · rw [scanLoop_other e l rest hk]; exact ih e he hrest

/-! ## Lemmas on the scan loop of `main` -/

theorem cutoffDuration_ok (E : Int) (d : Duration) (hE : minInt ≤ E ∧ E ≤ maxInt)
    (hd : cutoffDuration E = .ok d) :
    d = -((E + 3600) * 1000000000) ∧ 0 ≤ E + 3600 ∧ E + 3600 ≤ 9223372036 := by
  unfold cutoffDuration parseCutoff at hd
  have hw : wrapInt (E + graceSeconds) = E + 3600 ∨ wrapInt (E + graceSeconds) < 0 := by
    unfold wrapInt graceSeconds
    unfold minInt maxInt at hE
    norm_num at hE ⊢
    omega
  split at hd
  · rename_i hr
    injection hd with hd
    rcases hw with hw | hw
    · rw [hw] at hd hr
      exact ⟨hd.symm, hr.1, hr.2⟩
    · omega
  · cases hd

theorem visit_eq (c : ScanConfig) (now : Time) (d : Duration) (st : ScanState) (f : FileInfo) :
    visit c now d st f =
      if counted now d f then
        { count := st.count + 1
          removed := st.removed ++ (if c.dryrunOn then [] else [c.dirName ++ f.Name])
          debugLog := st.debugLog ++
            (if c.debugOn then [bytes "DEBUG: Deleted: " ++ c.dirName ++ f.Name] else []) }
      else st := by
  unfold visit counted
  cases hdir : f.IsDir <;> cases hexp : isExpired now d f <;>
    cases hdry : c.dryrunOn <;> cases hdbg : c.debugOn <;> simp

theorem foldl_visit (c : ScanConfig) (now : Time) (d : Duration) (st : ScanState)
    (fs : List FileInfo) :
    fs.foldl (visit c now d) st =
      { count := st.count + (fs.filter (counted now d)).length
        removed := st.removed ++
          (if c.dryrunOn then [] else (fs.filter (counted now d)).map (fun f => c.dirName ++ f.Name))
        debugLog := st.debugLog ++
          (if c.debugOn then
            (fs.filter (counted now d)).map
              (fun f => bytes "DEBUG: Deleted: " ++ c.dirName ++ f.Name)
           else []) } := by
  induction fs generalizing st with
  | nil => cases st; simp
  | cons f fs ih =>
    rw [List.foldl_cons, ih, visit_eq]
    cases hc : counted now d f <;> cases hdry : c.dryrunOn <;> cases hdbg : c.debugOn <;>
      simp [List.filter_cons, hc, Nat.add_assoc, Nat.add_comm 1]

theorem scanBatches_flatten (c : ScanConfig) (now : Time) (d : Duration) (st : ScanState)
    (batches : List (List FileInfo)) :
    scanBatches c now d st batches = batches.flatten.foldl (visit c now d) st := by
  induction batches generalizing st with
  | nil => rfl
  | cons fs more ih => simp [scanBatches, ih, List.foldl_append]

theorem scanDir_effects (c : ScanConfig) (now : Time) (d : Duration) (l : Listing) :
    (scanDir c now d l).effects =
      { count := (l.batches.flatten.filter (counted now d)).length
        removed :=
          if c.dryrunOn then []
          else (l.batches.flatten.filter (counted now d)).map (fun f => c.dirName ++ f.Name)
        debugLog :=
          if c.debugOn then
            (l.batches.flatten.filter (counted now d)).map
              (fun f => bytes "DEBUG: Deleted: " ++ c.dirName ++ f.Name)
          else [] } := by
  have h : (scanDir c now d l).effects = scanBatches c now d ScanState.init l.batches := by
    unfold scanDir
    cases l.ending <;> rfl
  rw [h, scanBatches_flatten, foldl_visit]
  simp [ScanState.init]

theorem scanDir_result (c : ScanConfig) (now : Time) (d : Duration) (l : Listing) :
    (scanDir c now d l).result =
      match l.ending with
      | .eof => .ok (l.batches.flatten.filter (counted now d)).length
      | .failed => .error .readdir := by
  have h := scanDir_effects c now d l
  unfold scanDir at h ⊢
  cases hl : l.ending
  · simp only [hl] at h ⊢
    have := congrArg ScanState.count h
    simpa using this
  · rfl

/-- Function `main` either ends in `log.Fatal` before the scan or is the scan
with a cutoff duration, and which of the two does not depend on the flags. -/
theorem main_cases (w : World) :
    (∃ e, ∀ c, main c w = Run.fatal e) ∨
    (∃ E d, readSessionExpiry w.config = .ok E ∧ cutoffDuration E = .ok d ∧
      ∀ c, main c w = scanDir c w.now d w.listing) := by
  unfold main
  cases w.configStat
  · exact Or.inl ⟨.statConfig, fun _ => rfl⟩
  · cases hE : readSessionExpiry w.config with
    | error e => exact Or.inl ⟨e, fun _ => rfl⟩
    | ok E =>
      cases w.dirOpens
      · exact Or.inl ⟨.openDir, fun _ => rfl⟩
      · cases hd : cutoffDuration E with
        | error e => exact Or.inl ⟨e, fun _ => by simp [hd]⟩
        | ok d => exact Or.inr ⟨E, d, rfl, hd, fun _ => by simp [hd]⟩

/-! ## The expiry decision, dry-run, directories and batching -/

/-- C1. Expiry decision rule of the scan loop: for every scan time `now`, every
`int` expiry `E` whose cutoff duration is computed without error and every
non-directory entry with modification time `m`, the entry is expired exactly
when `now - (E+3600)s` is strictly after `m`; an expired entry is counted and,
unless dry-run is on, removed at `dirName ++ name`; any other entry leaves the
state alone. One second older than the cutoff is expired, one second younger
is not, and exactly at the cutoff is not. Times are in nanoseconds. -/
theorem expiry_decision_rule (c : ScanConfig) (now m : Time) (E : Int) (d : Duration)
    (st : ScanState) (name : GoString)
    (hE : minInt ≤ E ∧ E ≤ maxInt) (hd : cutoffDuration E = .ok d) :
    (isExpired now d ⟨name, false, m⟩ = true ↔ m < now - (E + 3600) * 1000000000) ∧
    (m < now - (E + 3600) * 1000000000 →
      (visit c now d st ⟨name, false, m⟩).count = st.count + 1 ∧
      (visit c now d st ⟨name, false, m⟩).removed =
        if c.dryrunOn then st.removed else st.removed ++ [c.dirName ++ name]) ∧
    (¬ m < now - (E + 3600) * 1000000000 → visit c now d st ⟨name, false, m⟩ = st) ∧
    isExpired now d ⟨name, false, now - (E + 3600 + 1) * 1000000000⟩ = true ∧
    isExpired now d ⟨name, false, now - (E + 3600 - 1) * 1000000000⟩ = false ∧
    isExpired now d ⟨name, false, now - (E + 3600) * 1000000000⟩ = false := by
  obtain ⟨hdv, _, _⟩ := cutoffDuration_ok E d hE hd
  subst hdv
  have hiff : ∀ t : Time, isExpired now (-((E + 3600) * 1000000000)) ⟨name, false, t⟩ = true ↔
      t < now - (E + 3600) * 1000000000 := by
    intro t
    simp only [isExpired, timeAfter, timeAdd, decide_eq_true_eq]
    constructor <;> intro h <;> linarith
  refine ⟨hiff m, ?_, ?_, ?_, ?_, ?_⟩
  · intro hm
    have hx := (hiff m).mpr hm
    rw [visit_eq]
    simp only [counted, hx, Bool.not_false, Bool.and_self, if_true]
    cases c.dryrunOn <;> simp
  · intro hm
    have hx : isExpired now (-((E + 3600) * 1000000000)) ⟨name, false, m⟩ = false := by
      cases h : isExpired now (-((E + 3600) * 1000000000)) ⟨name, false, m⟩
      · rfl
      · exact absurd ((hiff m).mp h) hm
    rw [visit_eq]
    simp [counted, hx]
  · exact (hiff _).mpr (by linarith)
  · cases h : isExpired now (-((E + 3600) * 1000000000))
        ⟨name, false, now - (E + 3600 - 1) * 1000000000⟩
    · rfl
    · have := (hiff _).mp h
      linarith
  · cases h : isExpired now (-((E + 3600) * 1000000000))
        ⟨name, false, now - (E + 3600) * 1000000000⟩
    · rfl
    · have := (hiff _).mp h
      linarith

/-- Witness of C1: expiry 28800 at scan time 10^14 ns, for an entry two days
old, with dry-run off. -/
theorem expiry_decision_rule_witness :
    cutoffDuration 28800 = .ok (-32400000000000) ∧
    (visit ⟨bytes "/var/php/", false, false⟩ 100000000000000 (-32400000000000) ScanState.init
      ⟨bytes "sess_a", false, 0⟩).removed = [bytes "/var/php/sess_a"] ∧
    isExpired 100000000000000 (-32400000000000)
      ⟨bytes "sess_a", false, 100000000000000 - (28800 + 3600) * 1000000000⟩ = false := by
  have h := expiry_decision_rule ⟨bytes "/var/php/", false, false⟩ 100000000000000 0 28800
    (-32400000000000) ScanState.init (bytes "sess_a") (by decide) (by decide)
  refine ⟨by decide, ?_, h.2.2.2.2.2⟩
  have h2 := (h.2.1 (by decide)).2
  rw [h2]
  decide

/-- C4. Dry-run invariant of the scan loop: for every listing, scan time and
cutoff duration, the run with dry-run on and the run with dry-run off end the
same way with the same count; with dry-run on no removal is attempted; with
dry-run off the removals are, in order, the paths `dirName ++ name` of exactly
the counted entries (non-directories older than the cutoff), one per unit of
the count. The same holds of `main` as a whole, in every world. -/
theorem dry_run_invariant (dir : GoString) (dbg : Bool) (now : Time) (d : Duration)
    (l : Listing) :
    (scanDir ⟨dir, true, dbg⟩ now d l).result = (scanDir ⟨dir, false, dbg⟩ now d l).result ∧
    (scanDir ⟨dir, true, dbg⟩ now d l).effects.count =
      (scanDir ⟨dir, false, dbg⟩ now d l).effects.count ∧
    (scanDir ⟨dir, true, dbg⟩ now d l).effects.removed = [] ∧
    (scanDir ⟨dir, false, dbg⟩ now d l).effects.removed =
      (l.batches.flatten.filter (counted now d)).map (fun f => dir ++ f.Name) ∧
    (scanDir ⟨dir, false, dbg⟩ now d l).effects.count =
      (l.batches.flatten.filter (counted now d)).length ∧
    (∀ w : World,
      (main ⟨dir, true, dbg⟩ w).result = (main ⟨dir, false, dbg⟩ w).result ∧
      (main ⟨dir, true, dbg⟩ w).effects.count = (main ⟨dir, false, dbg⟩ w).effects.count ∧
      (main ⟨dir, true, dbg⟩ w).effects.removed = [] ∧
      (main ⟨dir, false, dbg⟩ w).effects.removed.length =
        (main ⟨dir, false, dbg⟩ w).effects.count) := by
  refine ⟨?_, ?_, ?_, ?_, ?_, ?_⟩
  · rw [scanDir_result, scanDir_result]
  · rw [scanDir_effects, scanDir_effects]
  · rw [scanDir_effects]; rfl
  · rw [scanDir_effects]; rfl
  · rw [scanDir_effects]
  · intro w
    rcases main_cases w with ⟨e, he⟩ | ⟨E, d1, _, _, hm⟩
    · rw [he, he]
      exact ⟨rfl, rfl, rfl, rfl⟩
    · rw [hm, hm]
      refine ⟨?_, ?_, ?_, ?_⟩
      · rw [scanDir_result, scanDir_result]
      · rw [scanDir_effects, scanDir_effects]
      · rw [scanDir_effects]; rfl
      · rw [scanDir_effects]
        exact List.length_map _ _

/-- C5. Directory exclusion in the scan loop: an entry whose is-directory flag is
set leaves the count, the removals and the log as they are, whatever its
modification time and whatever the flags; and a whole run is the same as the
run on the listing with every directory entry taken out. -/
theorem directory_exclusion (c : ScanConfig) (now : Time) (d : Duration) :
    (∀ (st : ScanState) (name : GoString) (m : Time),
      visit c now d st ⟨name, true, m⟩ = st) ∧
    (∀ l : Listing,
      scanDir c now d l =
        scanDir c now d ⟨l.batches.map (List.filter (fun f => !f.IsDir)), l.ending⟩) ∧
    (∀ l : Listing, ∀ f ∈ l.batches.flatten.filter (counted now d), f.IsDir = false) := by
  refine ⟨?_, ?_, ?_⟩
  · intro st name m
    simp [visit]
  · intro l
    have hf : ∀ bs : List (List FileInfo),
        (bs.map (List.filter (fun f => !f.IsDir))).flatten.filter (counted now d) =
          bs.flatten.filter (counted now d) := by
      intro bs
      induction bs with
      | nil => rfl
      | cons b bs ih =>
        simp only [List.map_cons, List.flatten_cons, List.filter_append, ih, List.filter_filter]
        congr 1
        apply List.filter_congr
        intro f _
        simp only [counted]
        cases f.IsDir <;> simp
    have he := scanDir_effects c now d l
    have he2 := scanDir_effects c now d
      ⟨l.batches.map (List.filter (fun f => !f.IsDir)), l.ending⟩
    have hr := scanDir_result c now d l
    have hr2 := scanDir_result c now d
      ⟨l.batches.map (List.filter (fun f => !f.IsDir)), l.ending⟩
    simp only [hf] at he2 hr2
    rw [← he2] at he
    rw [← hr2] at hr
    cases h1 : scanDir c now d l
    cases h2 : scanDir c now d ⟨l.batches.map (List.filter (fun f => !f.IsDir)), l.ending⟩
    rw [h1, h2] at he hr
    simp only at he hr
    rw [he, hr]
  · intro l f hf
    have := (List.mem_filter.mp hf).2
    simp only [counted, Bool.and_eq_true, Bool.not_eq_true] at this
    simpa using this.1

/-- C6. Batching correctness of the scan loop: however the entries are cut into
batches before the end-of-listing signal, the run reports the number of
non-directory entries older than the cutoff in the concatenation of the
batches, and is in every respect the run on that concatenation delivered as
one batch. -/
theorem batching_correctness (c : ScanConfig) (now : Time) (d : Duration)
    (batches : List (List FileInfo)) :
    (scanDir c now d ⟨batches, .eof⟩).result =
      .ok (batches.flatten.filter (counted now d)).length ∧
    scanDir c now d ⟨batches, .eof⟩ = scanDir c now d ⟨[batches.flatten], .eof⟩ := by
  refine ⟨by rw [scanDir_result], ?_⟩
  have he := scanDir_effects c now d ⟨batches, .eof⟩
  have he2 := scanDir_effects c now d ⟨[batches.flatten], .eof⟩
  have hr := scanDir_result c now d ⟨batches, .eof⟩
  have hr2 := scanDir_result c now d ⟨[batches.flatten], .eof⟩
  simp only [List.flatten_cons, List.flatten_nil, List.append_nil] at he2 hr2
  rw [← he2] at he
  simp only at hr hr2
  rw [← hr2] at hr
  cases h1 : scanDir c now d ⟨batches, .eof⟩
  cases h2 : scanDir c now d ⟨[batches.flatten], .eof⟩
  rw [h1, h2] at he hr
  simp only at he hr
  rw [he, hr]

/-! ## The config reader -/

theorem startsWithKey_false (l : GoString) (h : startsWithKey l = false) :
    l.take 25 ≠ keyPrefix := by
  simpa [startsWithKey] using h

theorem startsWithKey_true (l : GoString) (h : startsWithKey l = true) :
    l.take 25 = keyPrefix := by
  simpa [startsWithKey] using h

theorem isOk_false (s : GoString) (h : (Atoi s).isOk = false) : ∀ v, Atoi s ≠ .ok v := by
  intro v hv
  rw [hv] at h
  cases h

theorem isOk_true (s : GoString) (h : (Atoi s).isOk = true) : ∃ v, Atoi s = .ok v := by
  cases hA : Atoi s with
  | ok v => exact ⟨v, rfl⟩
  | error e => rw [hA] at h; cases h

theorem readSessionExpiry_malformed (lines : List GoString) (scanErr : Bool)
    (h : ∃ l ∈ lines, 27 ≤ l.length ∧ l.take 25 = keyPrefix ∧ ∀ v, Atoi (l.drop 25) ≠ .ok v) :
    readSessionExpiry (.scanned lines scanErr) = .ok defaultExpiry := by
  simp [readSessionExpiry, scanLoop_malformed 0 lines h]

/-- C2 as stated fails: a file whose only line carries the key followed by the
base-10 integer 99999999999999999999, which no Go `int` holds, resolves to the
default 28800 and not to that integer. -/
theorem out_of_range_value_is_not_returned :
    ¬ LastMatchWins [bytes "session.gc_maxlifetime = 99999999999999999999"] := by
  intro h
  have h1 := h (by decide) 99999999999999999999 (by decide)
  revert h1
  decide

/-- C2, amended. Last match wins in `readSessionExpiry`: when the scanner reports
no error, every line that starts with the prefix continues with at least two
bytes that `strconv.Atoi` accepts, and `l` is the last line that starts with the
prefix, the expiry returned is the integer on `l`. -/
theorem last_match_wins (pre post : List GoString) (l : GoString) (v : Int)
    (hpre : ∀ x ∈ pre, startsWithKey x = true → 27 ≤ x.length ∧ (Atoi (x.drop 25)).isOk = true)
    (hk : startsWithKey l = true) (hlen : 27 ≤ l.length) (hv : Atoi (l.drop 25) = .ok v)
    (hpost : ∀ x ∈ post, startsWithKey x = false) :
    readSessionExpiry (.scanned (pre ++ l :: post) false) = .ok v ∧
    lastKeyValue (pre ++ l :: post) = some v := by
  constructor
  · obtain ⟨e1, he1⟩ := scanLoop_append_valid 0 pre (l :: post)
      (fun x hx hxk => isOk_true _ (hpre x hx (by simpa [startsWithKey] using hxk)).2)
    have h2 : scanLoop e1 (l :: post) = .fellThrough v := by
      rw [scanLoop_match e1 v l post hlen (startsWithKey_true l hk) hv]
      exact scanLoop_no_key v post (fun x hx => startsWithKey_false x (hpost x hx))
    simp [readSessionExpiry, he1, h2]
  · have hfp : post.filter startsWithKey = [] := by
      rw [List.filter_eq_nil_iff]
      intro x hx
      simp [hpost x hx]
    unfold lastKeyValue
    rw [List.filter_append, List.filter_cons, hk, if_pos rfl, hfp, List.getLast?_append]
    simp [(Atoi_ok_base10 _ v hv).2.1]

/-- Witness of C2, amended: values 100 then 200 between two other lines resolve
to 200. -/
theorem last_match_wins_witness :
    readSessionExpiry (.scanned
      [bytes "; php settings", bytes "session.gc_maxlifetime = 100",
       bytes "session.gc_maxlifetime = 200", bytes "session.save_path = /var/php"] false)
      = .ok 200 :=
  (last_match_wins [bytes "; php settings", bytes "session.gc_maxlifetime = 100"]
    [bytes "session.save_path = /var/php"] (bytes "session.gc_maxlifetime = 200") 200
    (by decide) (by decide) (by decide) (by decide) (by decide)).1

/-- C3 as stated fails: a matching line with value `abc` followed by a matching
line with value 200 resolves to 28800, not to 200. -/
theorem later_valid_match_does_not_override :
    startsWithKey (bytes "session.gc_maxlifetime = abc") = true ∧
    Atoi (bytes "abc") = .error .badSyntax ∧
    startsWithKey (bytes "session.gc_maxlifetime = 200") = true ∧
    Atoi (bytes "200") = .ok 200 ∧
    readSessionExpiry (.scanned
      [bytes "session.gc_maxlifetime = abc", bytes "session.gc_maxlifetime = 200"] false)
      = .ok 28800 ∧
    readSessionExpiry (.scanned
      [bytes "session.gc_maxlifetime = abc", bytes "session.gc_maxlifetime = 200"] false)
      ≠ .ok 200 := by
  decide

/-- C3, amended. A malformed match ends the scan in `readSessionExpiry`: for every
config file containing a line that starts with the prefix and continues with at
least two bytes that fail integer parsing, the expiry returned is the default
28800, whatever lines follow (later matching lines with a valid integer
included) and whether or not the scanner would have reported an error. -/
theorem malformed_match_ends_scan (pre rest : List GoString) (bad : GoString) (scanErr : Bool)
    (hk : startsWithKey bad = true) (hlen : 27 ≤ bad.length)
    (hbad : (Atoi (bad.drop 25)).isOk = false) :
    readSessionExpiry (.scanned (pre ++ bad :: rest) scanErr) = .ok 28800 :=
  readSessionExpiry_malformed _ scanErr
    ⟨bad, by simp, hlen, startsWithKey_true bad hk, isOk_false _ hbad⟩

/-- Witness of C3, amended: value `abc`, then value 200. -/
theorem malformed_match_ends_scan_witness :
    readSessionExpiry (.scanned
      [bytes "session.gc_maxlifetime = abc", bytes "session.gc_maxlifetime = 200"] false)
      = .ok 28800 :=
  malformed_match_ends_scan [] [bytes "session.gc_maxlifetime = 200"]
    (bytes "session.gc_maxlifetime = abc") false (by decide) (by decide) (by decide)

/-- C7 at its failing input: a line made of the prefix and one more byte has 26
bytes and is skipped by the test `length < 27`, so a file whose only line is
the prefix followed by one digit resolves to 0; for the digit 5, `Atoi` of the
remainder would have been 5. -/
theorem single_digit_line_is_skipped :
    (∀ dgt : UInt8, readSessionExpiry (.scanned [keyPrefix ++ [dgt]] false) = .ok 0) ∧
    (bytes "session.gc_maxlifetime = 5").length = 26 ∧
    startsWithKey (bytes "session.gc_maxlifetime = 5") = true ∧
    Atoi ((bytes "session.gc_maxlifetime = 5").drop 25) = .ok 5 ∧
    readSessionExpiry (.scanned [bytes "session.gc_maxlifetime = 5"] false) = .ok 0 := by
  refine ⟨?_, by decide, by decide, by decide, by decide⟩
  intro dgt
  have hlen : (keyPrefix ++ [dgt]).length < 27 := by
    simp [keyPrefix_length]
  rw [readSessionExpiry, scanLoop_short 0 _ [] hlen]
  rfl

/-- C8. Malformed value falls back to the default: for every config file with a
line made of the prefix and a value of at least two bytes that is not a
base-10 integer, `readSessionExpiry` returns the default 28800, which is not 0;
this holds whatever the other lines are, so in particular when that line is
the only one that starts with the prefix. -/
theorem malformed_only_match_gives_default (pre post : List GoString) (value : GoString)
    (scanErr : Bool) (hlen : 2 ≤ value.length) (hbad : isBase10Integer value = false) :
    readSessionExpiry (.scanned (pre ++ (keyPrefix ++ value) :: post) scanErr) = .ok 28800 ∧
    defaultExpiry = 28800 ∧ (28800 : Int) ≠ 0 := by
  refine ⟨?_, by decide, by decide⟩
  apply readSessionExpiry_malformed
  refine ⟨keyPrefix ++ value, by simp, ?_, ?_, ?_⟩
  · rw [List.length_append, keyPrefix_length]; omega
  · rw [List.take_left' keyPrefix_length]
  · rw [List.drop_left' keyPrefix_length]
    exact Atoi_fails_of_not_base10 value hbad

/-- Witness of C8: the value `abc` between two unrelated lines. -/
theorem malformed_only_match_gives_default_witness :
    readSessionExpiry (.scanned
      [bytes "[Session]", bytes "session.gc_maxlifetime = abc", bytes "session.name = PHPSESSID"]
      false) = .ok 28800 :=
  (malformed_only_match_gives_default [bytes "[Session]"] [bytes "session.name = PHPSESSID"]
    (bytes "abc") false (by decide) (by decide)).1

/-- C9. No match yields zero: for every config file scanned without error in
which no line starts with the 25-byte prefix, `readSessionExpiry` returns 0,
which is not the default 28800. -/
theorem no_match_yields_zero (lines : List GoString)
    (h : ∀ l ∈ lines, startsWithKey l = false) :
    readSessionExpiry (.scanned lines false) = .ok 0 ∧ (0 : Int) ≠ defaultExpiry := by
  refine ⟨?_, by decide⟩
  simp [readSessionExpiry, scanLoop_no_key 0 lines (fun l hl => startsWithKey_false l (h l hl))]

/-- Witness of C9: the empty file, and a file in which the key appears only with
leading whitespace, in another case and with other spacing. -/
theorem no_match_yields_zero_witness :
    readSessionExpiry (.scanned [] false) = .ok 0 ∧
    readSessionExpiry (.scanned
      [bytes " session.gc_maxlifetime = 100", bytes "Session.gc_maxlifetime = 100",
       bytes "session.gc_maxlifetime=100"] false) = .ok 0 :=
  ⟨(no_match_yields_zero [] (by decide)).1,
   (no_match_yields_zero
      [bytes " session.gc_maxlifetime = 100", bytes "Session.gc_maxlifetime = 100",
       bytes "session.gc_maxlifetime=100"] (by decide)).1⟩

/-- C10 as stated fails: the value `-5` is returned as the expiry -5; and for
the largest `int` the expiry is non-negative but the `int` sum expiry + 3600
of main.go:73 wraps around to a negative number, below the grace period. -/
theorem negative_expiry_is_returned :
    readSessionExpiry (.scanned [bytes "session.gc_maxlifetime = -5"] false) = .ok (-5) ∧
    ¬ (0 : Int) ≤ -5 ∧
    readSessionExpiry (.scanned [bytes "session.gc_maxlifetime = 9223372036854775807"] false)
      = .ok 9223372036854775807 ∧
    wrapInt (9223372036854775807 + graceSeconds) = -9223372036854772209 ∧
    ¬ graceSeconds ≤ wrapInt (9223372036854775807 + graceSeconds) := by
  decide

/-- C10, amended. For every config file scanned without error in which no line
that starts with the prefix has a minus sign right after it, `readSessionExpiry`
returns an integer between 0 and the largest `int`; and the `int` sum
expiry + 3600 of main.go:73 is not below the grace period exactly when the
expiry is at most the largest `int` minus 3600. -/
theorem expiry_nonneg_without_minus (lines : List GoString)
    (h : ∀ l ∈ lines, startsWithKey l = true → (l.drop 25).head? ≠ some 45) :
    ∃ v, readSessionExpiry (.scanned lines false) = .ok v ∧ 0 ≤ v ∧ v ≤ maxInt ∧
      (graceSeconds ≤ wrapInt (v + graceSeconds) ↔ v ≤ maxInt - graceSeconds) := by
  have hwrap : ∀ v : Int, 0 ≤ v → v ≤ maxInt →
      (graceSeconds ≤ wrapInt (v + graceSeconds) ↔ v ≤ maxInt - graceSeconds) := by
    intro v h0 h1
    unfold maxInt at h1
    unfold wrapInt graceSeconds maxInt
    norm_num at h1 ⊢
    omega
  rcases scanLoop_nonneg 0 lines ⟨le_refl 0, by decide⟩
    (fun l hl hk => h l hl (by simpa [startsWithKey] using hk)) with hr | ⟨v, hv, h0, h1⟩
  · exact ⟨defaultExpiry, by simp [readSessionExpiry, hr], by decide, by decide,
      hwrap _ (by decide) (by decide)⟩
  · exact ⟨v, by simp [readSessionExpiry, hv], h0, h1, hwrap v h0 h1⟩

/-- Witness of C10, amended: values 100 and `+7200`. -/
theorem expiry_nonneg_without_minus_witness :
    ∃ v, readSessionExpiry (.scanned
      [bytes "session.gc_maxlifetime = 100", bytes "session.gc_maxlifetime = +7200"] false)
      = .ok v ∧ 0 ≤ v ∧ v ≤ maxInt ∧
      (graceSeconds ≤ wrapInt (v + graceSeconds) ↔ v ≤ maxInt - graceSeconds) :=
  expiry_nonneg_without_minus
    [bytes "session.gc_maxlifetime = 100", bytes "session.gc_maxlifetime = +7200"] (by decide)

end ExpireFiles
